import Mathlib

/-!
Verification of the region post-processing pipeline of
`src/scripts/sam_split_png.py` (class `ImprovedSAMDrawingSplitter`).

Shallow embedding conventions:
* Python integers are `ℤ` (or `ℕ` for image dimensions, which are
  nonnegative by construction).
* Python floats are embedded as exact rationals `ℚ`; float literals such
  as `0.8`, `0.3`, `0.05` are taken at their decimal value, and `np.pi`
  is taken at the exact value of the IEEE-754 double closest to π.
* A Python `dict` mask is the structure `Mask`; keys read through
  `mask.get(key, default)` become fields with that default.
* Fallible code (a division that can raise `ZeroDivisionError`) returns
  `Option`, with `none` standing for the raised exception.
-/

/-- An axis-aligned bounding box `[x, y, w, h]` as stored in
`mask['bbox']` (top-left corner, width, height). -/
structure BBox where
  x : ℤ
  y : ℤ
  w : ℤ
  h : ℤ
deriving DecidableEq, Repr

/-- Embeds `calculate_overlap` (lines 126-147): intersection over union
of two boxes, `0` when the boxes do not intersect and when the union is
not positive. -/
def calculate_overlap (bbox1 bbox2 : BBox) : ℚ :=
  let x_left := max bbox1.x bbox2.x
  let y_top := max bbox1.y bbox2.y
  let x_right := min (bbox1.x + bbox1.w) (bbox2.x + bbox2.w)
  let y_bottom := min (bbox1.y + bbox1.h) (bbox2.y + bbox2.h)
  if x_right < x_left ∨ y_bottom < y_top then 0
  else
    let intersection := (x_right - x_left) * (y_bottom - y_top)
    let area1 := bbox1.w * bbox1.h
    let area2 := bbox2.w * bbox2.h
    let union := area1 + area2 - intersection
    if 0 < union then (intersection : ℚ) / (union : ℚ) else 0

/-- Embeds `is_bbox_inside` (lines 149-168): whether `bbox1` lies inside
`bbox2` up to `threshold`.  The Python body divides by `area1` with no
guard, so the result is `none` (a `ZeroDivisionError`) whenever the
early disjointness return is not taken and `bbox1` has zero area. -/
def is_bbox_inside (bbox1 bbox2 : BBox) (threshold : ℚ) : Option Bool :=
  let x_left := max bbox1.x bbox2.x
  let y_top := max bbox1.y bbox2.y
  let x_right := min (bbox1.x + bbox1.w) (bbox2.x + bbox2.w)
  let y_bottom := min (bbox1.y + bbox1.h) (bbox2.y + bbox2.h)
  if x_right < x_left ∨ y_bottom < y_top then some false
  else
    let intersection := (x_right - x_left) * (y_bottom - y_top)
    let area1 := bbox1.w * bbox1.h
    if area1 = 0 then none
    else some (decide ((intersection : ℚ) / (area1 : ℚ) > threshold))

/-- Two closed boxes are disjoint as point sets exactly when one of the
interval intersections is empty, i.e. the code's early-return guard. -/
def boxesDisjoint (bbox1 bbox2 : BBox) : Prop :=
  min (bbox1.x + bbox1.w) (bbox2.x + bbox2.w) < max bbox1.x bbox2.x ∨
  min (bbox1.y + bbox1.h) (bbox2.y + bbox2.h) < max bbox1.y bbox2.y

instance (a b : BBox) : Decidable (boxesDisjoint a b) := by
  unfold boxesDisjoint; infer_instance

/-- C9: `calculate_overlap` is symmetric and vanishes on disjoint boxes;
it equals `1` on the diagonal only for boxes of positive width and
height (a zero-area box yields `0`, refuting the unconditional claim). -/
theorem calculate_overlap_props :
    (∀ a b : BBox, calculate_overlap a b = calculate_overlap b a) ∧
    (∀ a : BBox, 0 < a.w → 0 < a.h → calculate_overlap a a = 1) ∧
    (∀ a b : BBox, boxesDisjoint a b → calculate_overlap a b = 0) := by
  refine ⟨?_, ?_, ?_⟩
  · intro a b
    unfold calculate_overlap
    dsimp only
    rw [max_comm a.x b.x, max_comm a.y b.y, min_comm (a.x + a.w) (b.x + b.w),
      min_comm (a.y + a.h) (b.y + b.h), add_comm (a.w * a.h) (b.w * b.h)]
  · intro a hw hh
    unfold calculate_overlap
    have hx : min (a.x + a.w) (a.x + a.w) = a.x + a.w := min_self _
    have hxl : max a.x a.x = a.x := max_self _
    simp only [hx, hxl, min_self, max_self]
    have h1 : ¬ (a.x + a.w < a.x ∨ a.y + a.h < a.y) := by
      push_neg
      constructor <;> linarith
    rw [if_neg h1]
    have h2 : (a.x + a.w - a.x) * (a.y + a.h - a.y) = a.w * a.h := by ring
    rw [h2]
    have h3 : (0:ℤ) < a.w * a.h := mul_pos hw hh
    have h4 : a.w * a.h + a.w * a.h - a.w * a.h = a.w * a.h := by ring
    rw [h4, if_pos h3]
    have h5 : ((a.w * a.h : ℤ) : ℚ) ≠ 0 := by
      exact_mod_cast ne_of_gt h3
    field_simp
  · intro a b hd
    unfold calculate_overlap
    rcases lt_or_ge (min (a.x + a.w) (b.x + b.w)) (max a.x b.x) with h | h
    · rw [if_pos (Or.inl h)]
    · rcases hd with h' | h'
      · exact absurd h' (not_lt_of_ge h)
      · rw [if_pos (Or.inr h')]

/-- C9 witness: the symmetric/reflexive/disjoint properties at concrete
boxes. -/
theorem calculate_overlap_props_witness :
    calculate_overlap ⟨0, 0, 10, 10⟩ ⟨5, 5, 10, 10⟩ =
      calculate_overlap ⟨5, 5, 10, 10⟩ ⟨0, 0, 10, 10⟩ ∧
    calculate_overlap ⟨2, 3, 7, 9⟩ ⟨2, 3, 7, 9⟩ = 1 := by
  refine ⟨calculate_overlap_props.1 _ _, ?_⟩
  exact calculate_overlap_props.2.1 ⟨2, 3, 7, 9⟩ (by decide) (by decide)

/-- C9 counterexample: on a degenerate box of zero width the code
returns `0`, not `1.0`, so `overlapRatio(a,a) = 1.0` fails for that
box. -/
theorem calculate_overlap_refl_counterexample :
    calculate_overlap ⟨0, 0, 0, 5⟩ ⟨0, 0, 0, 5⟩ ≠ 1 := by
  decide

/-- C10: `is_bbox_inside` never raises when the first box has positive
width and height (its area is then positive at the division); it returns
`False` through the early return, before any division, whenever the
boxes are disjoint; and there is no guard for a zero-area first box: a
concrete non-disjoint pair with a zero-width first box reaches the
division and raises (`none`). -/
theorem is_bbox_inside_totality :
    (∀ (a b : BBox) (t : ℚ), 0 < a.w → 0 < a.h → (is_bbox_inside a b t).isSome) ∧
    (∀ (a b : BBox) (t : ℚ), boxesDisjoint a b → is_bbox_inside a b t = some false) ∧
    (is_bbox_inside ⟨0, 0, 0, 5⟩ ⟨0, 0, 5, 5⟩ (4/5) = none) := by
  refine ⟨?_, ?_, by decide⟩
  · intro a b t hw hh
    unfold is_bbox_inside
    by_cases hg : min (a.x + a.w) (b.x + b.w) < max a.x b.x ∨
        min (a.y + a.h) (b.y + b.h) < max a.y b.y
    · rw [if_pos hg]; rfl
    · rw [if_neg hg]
      have : a.w * a.h ≠ 0 := ne_of_gt (mul_pos hw hh)
      rw [if_neg this]
      rfl
  · intro a b t hd
    unfold is_bbox_inside
    rcases lt_or_ge (min (a.x + a.w) (b.x + b.w)) (max a.x b.x) with h | h
    · rw [if_pos (Or.inl h)]
    · rcases hd with h' | h'
      · exact absurd h' (not_lt_of_ge h)
      · rw [if_pos (Or.inr h')]

/-- C10 witness: at concrete inputs, a positive-area first box gives a
defined result, and a disjoint pair returns `False`. -/
theorem is_bbox_inside_totality_witness :
    (is_bbox_inside ⟨0, 0, 3, 4⟩ ⟨1, 1, 5, 5⟩ (4/5)).isSome ∧
    is_bbox_inside ⟨0, 0, 2, 2⟩ ⟨10, 10, 2, 2⟩ (4/5) = some false := by
  constructor
  · exact is_bbox_inside_totality.1 ⟨0, 0, 3, 4⟩ ⟨1, 1, 5, 5⟩ (4/5) (by decide) (by decide)
  · exact is_bbox_inside_totality.2.1 ⟨0, 0, 2, 2⟩ ⟨10, 10, 2, 2⟩ (4/5) (by decide)

/-- The zone tags stored in the `info_type` list of a mask
(`'bottom_info'`, `'right_info'`, `'merged_region'`,
`'protected_region'`). -/
inductive InfoTag where
  | bottom_info
  | right_info
  | merged_region
  | protected_region
deriving DecidableEq, Repr

/-- A mask record as it flows through the pipeline.  Every key that the
code reads through `mask.get(key, default)` (or writes) is a field with
that default; `original_count` defaults to `1` (a merged region counts
at least itself). -/
structure Mask where
  bbox : BBox
  area : ℤ
  stability_score : ℚ
  predicted_iou : ℚ
  is_info_region : Bool := false
  info_type : List InfoTag := []
  is_merged : Bool := false
  original_count : ℕ := 1
  is_protected : Bool := false
  is_bottom_protected : Bool := false
  is_protected_text : Bool := false
  priority_boost : ℚ := 1
  text_optimized : Bool := false
deriving DecidableEq, Repr

/-- The sort key of `remove_duplicate_masks` (line 178):
`x['area'] * x['stability_score']`. -/
def qualityScore (m : Mask) : ℚ :=
  (m.area : ℚ) * m.stability_score

/-- `sorted(masks, key=lambda x: x['area'] * x['stability_score'],
reverse=True)` is a stable descending sort: `a` may precede `b` exactly
when `qualityScore b ≤ qualityScore a`. -/
def qualityLE (a b : Mask) : Bool :=
  decide (qualityScore b ≤ qualityScore a)

/-- One iteration of the inner loop of `remove_duplicate_masks`
(lines 182-205) for candidate `current_mask` against the accepted list
`filtered_masks`, scanned in order.  Discard on high overlap or when the
candidate is contained in an accepted mask; when an accepted mask is
contained in the candidate, remove it, stop comparing and append the
candidate at the end; otherwise keep scanning and finally append.
`none` propagates a `ZeroDivisionError` from `is_bbox_inside`. -/
def dedupInsert (overlap_threshold : ℚ) (current_mask : Mask) :
    List Mask → Option (List Mask)
  | [] => some [current_mask]
  | kept_mask :: rest => do
    let overlap := calculate_overlap current_mask.bbox kept_mask.bbox
    let current_inside_kept ← is_bbox_inside current_mask.bbox kept_mask.bbox (8/10)
    let kept_inside_current ← is_bbox_inside kept_mask.bbox current_mask.bbox (8/10)
    if overlap > overlap_threshold ∨ current_inside_kept then
      some (kept_mask :: rest)
    else if kept_inside_current then
      some (rest ++ [current_mask])
    else do
      let tail ← dedupInsert overlap_threshold current_mask rest
      some (kept_mask :: tail)

/-- Embeds `remove_duplicate_masks` (lines 170-207): stable descending
sort by quality, then the greedy accept/discard/replace pass. -/
def remove_duplicate_masks (masks : List Mask) (overlap_threshold : ℚ) :
    Option (List Mask) :=
  (masks.mergeSort qualityLE).foldlM
    (fun filtered_masks current_mask =>
      dedupInsert overlap_threshold current_mask filtered_masks) []

/-- Restatement of the candidate-versus-accepted scan in the words of
the claim (spec §4.4), to be compared with `dedupInsert`. -/
def dedupSpecInsert (thr : ℚ) (candidate : Mask) :
    List Mask → Option (List Mask)
  | [] => some [candidate]
  | accepted :: others => do
    let ratio := calculate_overlap candidate.bbox accepted.bbox
    let candidate_contained ← is_bbox_inside candidate.bbox accepted.bbox (8/10)
    let accepted_contained ← is_bbox_inside accepted.bbox candidate.bbox (8/10)
    if ratio > thr ∨ candidate_contained then
      some (accepted :: others)
    else if accepted_contained then
      some (others ++ [candidate])
    else
      (accepted :: ·) <$> dedupSpecInsert thr candidate others

/-- The Deduplicator in the words of the claim: sort descending by
quality, then greedily build the accepted list candidate by
candidate. -/
def dedupSpecGo (thr : ℚ) : List Mask → List Mask → Option (List Mask)
  | accepted, [] => some accepted
  | accepted, candidate :: more => do
    let accepted' ← dedupSpecInsert thr candidate accepted
    dedupSpecGo thr accepted' more

/-- Spec-worded Deduplicator (claim C1). -/
def dedupSpec (masks : List Mask) (thr : ℚ) : Option (List Mask) :=
  dedupSpecGo thr [] (masks.mergeSort qualityLE)

theorem dedupSpecInsert_eq_dedupInsert (thr : ℚ) (c : Mask) :
    ∀ acc : List Mask, dedupSpecInsert thr c acc = dedupInsert thr c acc := by
  intro acc
  induction acc with
  | nil => rfl
  | cons k rest ih =>
    simp only [dedupSpecInsert, dedupInsert, ih, Option.map_eq_map,
      Functor.map, Option.bind_eq_bind]
    cases dedupInsert thr c rest <;> rfl

theorem dedupSpecGo_eq_foldlM (thr : ℚ) :
    ∀ (l acc : List Mask),
      dedupSpecGo thr acc l =
        l.foldlM (fun fm cm => dedupInsert thr cm fm) acc := by
  intro l
  induction l with
  | nil => intro acc; rfl
  | cons c more ih =>
    intro acc
    simp only [dedupSpecGo, List.foldlM_cons, dedupSpecInsert_eq_dedupInsert]
    cases dedupInsert thr c acc with
    | none => rfl
    | some acc' => simpa using ih acc'

/-- C1: the Deduplicator is exactly the claim's algorithm: sort
descending by `qualityScore`, then for each candidate scan the accepted
regions in order, discarding on overlap above the threshold or on
containment in an accepted region (threshold 0.8), replacing (and
stopping the scan) when an accepted region is contained in the
candidate, and appending the candidate otherwise. -/
theorem remove_duplicate_masks_eq_spec (masks : List Mask) (thr : ℚ) :
    remove_duplicate_masks masks thr = dedupSpec masks thr := by
  unfold remove_duplicate_masks dedupSpec
  rw [dedupSpecGo_eq_foldlM]

/-- Far-away accepted mask of highest quality (value 40000). -/
def dupA : Mask :=
  { bbox := ⟨1000, 1000, 100, 100⟩, area := 40000, stability_score := 1, predicted_iou := 1 }

/-- Small mask, quality 2500; it is strictly contained in `dupCur`. -/
def dupB : Mask :=
  { bbox := ⟨0, 0, 50, 50⟩, area := 2500, stability_score := 1, predicted_iou := 1 }

/-- Mask of quality 2000 overlapping `dupCur` with IoU 1/3 > 0.3. -/
def dupC : Mask :=
  { bbox := ⟨50, 0, 100, 100⟩, area := 2000, stability_score := 1, predicted_iou := 1 }

/-- Lowest-quality mask (1000): it replaces `dupB` (containment) and,
because the scan then stops, is never compared against `dupC`. -/
def dupCur : Mask :=
  { bbox := ⟨0, 0, 100, 100⟩, area := 1000, stability_score := 1, predicted_iou := 1 }

/-- C2 counterexample: the Deduplicator is not idempotent.  On the first
run `dupCur` replaces `dupB` and the comparison stops before `dupC` is
reached, so the output `[dupA, dupC, dupCur]` still contains a pair with
overlap ratio 1/3 > 0.3; the second run removes `dupCur`. -/
theorem remove_duplicate_masks_not_idempotent :
    remove_duplicate_masks [dupA, dupB, dupC, dupCur] (3/10) =
      some [dupA, dupC, dupCur] ∧
    remove_duplicate_masks [dupA, dupC, dupCur] (3/10) ≠
      some [dupA, dupC, dupCur] := by
  constructor
  · unfold remove_duplicate_masks
    rw [List.mergeSort_of_sorted (by decide!)]
    decide!
  · unfold remove_duplicate_masks
    rw [List.mergeSort_of_sorted (by decide!)]
    decide!

theorem dedupInsert_sublist (thr : ℚ) (c : Mask) :
    ∀ acc out : List Mask, dedupInsert thr c acc = some out → List.Sublist out (acc ++ [c]) := by
  intro acc
  induction acc with
  | nil =>
    intro out h
    simp only [dedupInsert, Option.some.injEq] at h
    subst h
    exact List.Sublist.refl _
  | cons k rest ih =>
    intro out h
    simp only [dedupInsert, Option.bind_eq_bind] at h
    cases h1 : is_bbox_inside c.bbox k.bbox (8/10) with
    | none => rw [h1] at h; simp at h
    | some b1 =>
      rw [h1] at h
      cases h2 : is_bbox_inside k.bbox c.bbox (8/10) with
      | none => rw [h2] at h; simp at h
      | some b2 =>
        rw [h2] at h
        simp only [Option.some_bind] at h
        by_cases hc1 : calculate_overlap c.bbox k.bbox > thr ∨ b1 = true
        · rw [if_pos hc1] at h
          simp only [Option.some.injEq] at h
          subst h
          exact List.sublist_append_left (k :: rest) [c]
        · rw [if_neg hc1] at h
          by_cases hc2 : b2 = true
          · rw [if_pos hc2] at h
            simp only [Option.some.injEq] at h
            subst h
            rw [List.cons_append]
            exact List.sublist_cons_self k (rest ++ [c])
          · rw [if_neg hc2] at h
            cases h3 : dedupInsert thr c rest with
            | none => rw [h3] at h; simp at h
            | some tail =>
              rw [h3] at h
              simp only [Option.some_bind, Option.some.injEq] at h
              subst h
              rw [List.cons_append]
              exact (ih tail h3).cons₂ k

theorem dedup_fold_sublist (thr : ℚ) :
    ∀ l acc out : List Mask,
      l.foldlM (fun fm cm => dedupInsert thr cm fm) acc = some out →
      List.Sublist out (acc ++ l) := by
  intro l
  induction l with
  | nil =>
    intro acc out h
    simp only [List.foldlM_nil, pure, Option.some.injEq] at h
    subst h
    simp
  | cons c more ih =>
    intro acc out h
    rw [List.foldlM_cons] at h
    cases h1 : dedupInsert thr c acc with
    | none => rw [h1] at h; simp [Bind.bind] at h
    | some acc' =>
      rw [h1] at h
      simp only [Option.bind_eq_bind, Option.some_bind] at h
      have hsub := ih acc' out h
      have h2 := (dedupInsert_sublist thr c acc acc' h1).append_right more
      have h3 : (acc ++ [c]) ++ more = acc ++ c :: more := by simp
      exact hsub.trans (h3 ▸ h2)

theorem dedup_fold_pairwise (thr : ℚ) :
    ∀ l acc out : List Mask,
      List.Pairwise (fun a b => qualityLE a b = true) (acc ++ l) →
      l.foldlM (fun fm cm => dedupInsert thr cm fm) acc = some out →
      List.Pairwise (fun a b => qualityLE a b = true) out := by
  intro l
  induction l with
  | nil =>
    intro acc out hp h
    simp only [List.foldlM_nil, pure, Option.some.injEq] at h
    subst h
    simpa using hp
  | cons c more ih =>
    intro acc out hp h
    rw [List.foldlM_cons] at h
    cases h1 : dedupInsert thr c acc with
    | none => rw [h1] at h; simp [Bind.bind] at h
    | some acc' =>
      rw [h1] at h
      simp only [Option.bind_eq_bind, Option.some_bind] at h
      apply ih acc' out _ h
      have hsub := (dedupInsert_sublist thr c acc acc' h1).append_right more
      have h3 : (acc ++ [c]) ++ more = acc ++ c :: more := by simp
      exact List.Pairwise.sublist (h3 ▸ hsub) hp

theorem qualityLE_trans :
    ∀ a b c : Mask, qualityLE a b → qualityLE b c → qualityLE a c := by
  intro a b c hab hbc
  simp only [qualityLE, decide_eq_true_eq] at *
  exact le_trans hbc hab

theorem qualityLE_total : ∀ a b : Mask, qualityLE a b || qualityLE b a := by
  intro a b
  simp only [qualityLE, Bool.or_eq_true, decide_eq_true_eq]
  exact le_total (qualityScore b) (qualityScore a)

/-- C2 amended: the Deduplicator is not idempotent (replacement stops
the scan early, see the counterexample), but a second run never adds
regions: whenever both runs succeed, the second run's output is a
subsequence of the first run's output. -/
theorem remove_duplicate_masks_second_run_sublist (thr : ℚ) (l o o' : List Mask)
    (h1 : remove_duplicate_masks l thr = some o)
    (h2 : remove_duplicate_masks o thr = some o') :
    List.Sublist o' o := by
  have hsorted : List.Pairwise (fun a b => qualityLE a b = true) o := by
    unfold remove_duplicate_masks at h1
    exact dedup_fold_pairwise thr (l.mergeSort qualityLE) [] o
      (by simpa using List.sorted_mergeSort qualityLE_trans qualityLE_total l) h1
  unfold remove_duplicate_masks at h2
  rw [List.mergeSort_of_sorted hsorted] at h2
  simpa using dedup_fold_sublist thr o [] o' h2

/-- C2 amended witness: on the counterexample list, the second run's
output `[dupA, dupC]` is a strict subsequence of the first run's
output. -/
theorem remove_duplicate_masks_second_run_sublist_witness :
    List.Sublist [dupA, dupC] [dupA, dupC, dupCur] := by
  apply remove_duplicate_masks_second_run_sublist (3/10) [dupA, dupB, dupC, dupCur]
  · unfold remove_duplicate_masks
    rw [List.mergeSort_of_sorted (by decide!)]
    decide!
  · unfold remove_duplicate_masks
    rw [List.mergeSort_of_sorted (by decide!)]
    decide!

/-- Embeds `merge_mask_cluster` (lines 620-645): envelope bbox over the
cluster, area = sum of member areas, stability/IoU = arithmetic means
(`np.mean`).  The returned record carries only these four keys: every
flag field keeps its default, in particular `original_count = 1`. -/
def merge_mask_cluster : List Mask → Option Mask
  | [] => none
  | m :: rest =>
    let min_x := (rest.map (fun k => k.bbox.x)).foldl min m.bbox.x
    let min_y := (rest.map (fun k => k.bbox.y)).foldl min m.bbox.y
    let max_x := (rest.map (fun k => k.bbox.x + k.bbox.w)).foldl max (m.bbox.x + m.bbox.w)
    let max_y := (rest.map (fun k => k.bbox.y + k.bbox.h)).foldl max (m.bbox.y + m.bbox.h)
    let total_area := ((m :: rest).map (fun k => k.area)).sum
    let avg_stability := ((m :: rest).map (fun k => k.stability_score)).sum / ((m :: rest).length : ℚ)
    let avg_iou := ((m :: rest).map (fun k => k.predicted_iou)).sum / ((m :: rest).length : ℚ)
    some { bbox := ⟨min_x, min_y, max_x - min_x, max_y - min_y⟩,
           area := total_area,
           stability_score := avg_stability,
           predicted_iou := avg_iou }

theorem foldl_min_le_init : ∀ (l : List ℤ) (init : ℤ), l.foldl min init ≤ init := by
  intro l
  induction l with
  | nil => intro init; exact le_refl _
  | cons x l ih =>
    intro init
    exact le_trans (ih (min init x)) (min_le_left _ _)

theorem foldl_min_le_mem :
    ∀ (l : List ℤ) (init x : ℤ), x ∈ l → l.foldl min init ≤ x := by
  intro l
  induction l with
  | nil => intro init x hx; cases hx
  | cons y l ih =>
    intro init x hx
    rcases List.mem_cons.mp hx with h | h
    · subst h
      exact le_trans (foldl_min_le_init l (min init x)) (min_le_right _ _)
    · exact ih (min init y) x h

theorem le_foldl_min :
    ∀ (l : List ℤ) (init b : ℤ), b ≤ init → (∀ x ∈ l, b ≤ x) → b ≤ l.foldl min init := by
  intro l
  induction l with
  | nil => intro init b h _; exact h
  | cons y l ih =>
    intro init b h hall
    exact ih (min init y) b (le_min h (hall y (List.mem_cons_self _ _))) fun x hx =>
      hall x (List.mem_cons_of_mem _ hx)

theorem init_le_foldl_max : ∀ (l : List ℤ) (init : ℤ), init ≤ l.foldl max init := by
  intro l
  induction l with
  | nil => intro init; exact le_refl _
  | cons x l ih =>
    intro init
    exact le_trans (le_max_left _ _) (ih (max init x))

theorem mem_le_foldl_max :
    ∀ (l : List ℤ) (init x : ℤ), x ∈ l → x ≤ l.foldl max init := by
  intro l
  induction l with
  | nil => intro init x hx; cases hx
  | cons y l ih =>
    intro init x hx
    rcases List.mem_cons.mp hx with h | h
    · subst h
      exact le_trans (le_max_right _ _) (init_le_foldl_max l (max init x))
    · exact ih (max init y) x h

theorem foldl_max_le :
    ∀ (l : List ℤ) (init b : ℤ), init ≤ b → (∀ x ∈ l, x ≤ b) → l.foldl max init ≤ b := by
  intro l
  induction l with
  | nil => intro init b h _; exact h
  | cons y l ih =>
    intro init b h hall
    exact ih (max init y) b (max_le h (hall y (List.mem_cons_self _ _))) fun x hx =>
      hall x (List.mem_cons_of_mem _ hx)

/-- C5 (amended): for every nonempty cluster with nonnegative member
areas, `merge_mask_cluster` returns a region whose bbox is the minimal
axis-aligned box covering all member boxes, whose area is the exact sum
of member areas (hence at least each member's area), whose stability and
predicted IoU are the arithmetic means over members — but whose
`original_count` stays at the default `1`: the member count is *not*
recorded (only the bottom-info merge of `merge_bottom_info_regions`
records `original_count`). -/
theorem merge_mask_cluster_spec (cluster : List Mask) (hne : cluster ≠ [])
    (hpos : ∀ m ∈ cluster, 0 ≤ m.area) :
    ∃ M, merge_mask_cluster cluster = some M ∧
      (∀ m ∈ cluster, M.bbox.x ≤ m.bbox.x ∧ M.bbox.y ≤ m.bbox.y ∧
        m.bbox.x + m.bbox.w ≤ M.bbox.x + M.bbox.w ∧
        m.bbox.y + m.bbox.h ≤ M.bbox.y + M.bbox.h) ∧
      (∀ X Y X2 Y2 : ℤ,
        (∀ m ∈ cluster, X ≤ m.bbox.x ∧ Y ≤ m.bbox.y ∧
          m.bbox.x + m.bbox.w ≤ X2 ∧ m.bbox.y + m.bbox.h ≤ Y2) →
        X ≤ M.bbox.x ∧ Y ≤ M.bbox.y ∧ M.bbox.x + M.bbox.w ≤ X2 ∧
          M.bbox.y + M.bbox.h ≤ Y2) ∧
      M.area = (cluster.map (fun m => m.area)).sum ∧
      (∀ m ∈ cluster, m.area ≤ M.area) ∧
      M.stability_score = (cluster.map (fun m => m.stability_score)).sum / (cluster.length : ℚ) ∧
      M.predicted_iou = (cluster.map (fun m => m.predicted_iou)).sum / (cluster.length : ℚ) ∧
      M.original_count = 1 := by
  cases cluster with
  | nil => exact absurd rfl hne
  | cons m rest =>
    refine ⟨_, rfl, ?_, ?_, rfl, ?_, rfl, rfl, rfl⟩
    · intro k hk
      dsimp only
      rcases List.mem_cons.mp hk with h | h
      · subst h
        refine ⟨foldl_min_le_init _ _, foldl_min_le_init _ _, ?_, ?_⟩
        · have := init_le_foldl_max (rest.map (fun j => j.bbox.x + j.bbox.w))
            (k.bbox.x + k.bbox.w)
          omega
        · have := init_le_foldl_max (rest.map (fun j => j.bbox.y + j.bbox.h))
            (k.bbox.y + k.bbox.h)
          omega
      · refine ⟨foldl_min_le_mem _ _ _ (List.mem_map_of_mem _ h),
          foldl_min_le_mem _ _ _ (List.mem_map_of_mem _ h), ?_, ?_⟩
        · have := mem_le_foldl_max (rest.map (fun j => j.bbox.x + j.bbox.w))
            (m.bbox.x + m.bbox.w) (k.bbox.x + k.bbox.w) (List.mem_map_of_mem _ h)
          omega
        · have := mem_le_foldl_max (rest.map (fun j => j.bbox.y + j.bbox.h))
            (m.bbox.y + m.bbox.h) (k.bbox.y + k.bbox.h) (List.mem_map_of_mem _ h)
          omega
    · intro X Y X2 Y2 hall
      dsimp only
      obtain ⟨hX, hY, hX2, hY2⟩ := hall m (List.mem_cons_self _ _)
      have hminx : X ≤ (rest.map (fun k => k.bbox.x)).foldl min m.bbox.x := by
        refine le_foldl_min _ _ _ hX ?_
        intro x hx
        obtain ⟨k, hk, rfl⟩ := List.mem_map.mp hx
        exact (hall k (List.mem_cons_of_mem _ hk)).1
      have hminy : Y ≤ (rest.map (fun k => k.bbox.y)).foldl min m.bbox.y := by
        refine le_foldl_min _ _ _ hY ?_
        intro x hx
        obtain ⟨k, hk, rfl⟩ := List.mem_map.mp hx
        exact (hall k (List.mem_cons_of_mem _ hk)).2.1
      have hmaxx : (rest.map (fun k => k.bbox.x + k.bbox.w)).foldl max
          (m.bbox.x + m.bbox.w) ≤ X2 := by
        refine foldl_max_le _ _ _ hX2 ?_
        intro x hx
        obtain ⟨k, hk, rfl⟩ := List.mem_map.mp hx
        exact (hall k (List.mem_cons_of_mem _ hk)).2.2.1
      have hmaxy : (rest.map (fun k => k.bbox.y + k.bbox.h)).foldl max
          (m.bbox.y + m.bbox.h) ≤ Y2 := by
        refine foldl_max_le _ _ _ hY2 ?_
        intro x hx
        obtain ⟨k, hk, rfl⟩ := List.mem_map.mp hx
        exact (hall k (List.mem_cons_of_mem _ hk)).2.2.2
      exact ⟨hminx, hminy, by omega, by omega⟩
    · intro k hk
      exact List.single_le_sum (fun a ha => by
          obtain ⟨j, hj, rfl⟩ := List.mem_map.mp ha
          exact hpos j hj)
        k.area (List.mem_map_of_mem _ hk)

/-- Two nearby masks (centers 60 px apart, within the 100 px DBSCAN
radius, so they form one proximity cluster of size 2). -/
def cl5a : Mask :=
  { bbox := ⟨0, 0, 40, 40⟩, area := 1600, stability_score := 1, predicted_iou := 1 }

/-- Second member of the size-2 cluster. -/
def cl5b : Mask :=
  { bbox := ⟨60, 0, 40, 40⟩, area := 1600, stability_score := 1, predicted_iou := 1 }

/-- C5 counterexample: the region `merge_mask_cluster` synthesizes for a
cluster of 2 members has `original_count = 1`, not the member count 2 —
the merge result records no provenance count. -/
theorem merge_mask_cluster_count_counterexample :
    (merge_mask_cluster [cl5a, cl5b]).map (fun m => m.original_count) = some 1 ∧
    (1 : ℕ) ≠ 2 := by
  exact ⟨rfl, by decide⟩

/-- C5 witness: the amended theorem applied to the concrete size-2
cluster. -/
theorem merge_mask_cluster_spec_witness :
    ∃ M, merge_mask_cluster [cl5a, cl5b] = some M ∧
      M.area = (([cl5a, cl5b]).map (fun m => m.area)).sum ∧
      M.original_count = 1 := by
  obtain ⟨M, h1, _, _, h2, _, _, _, h3⟩ :=
    merge_mask_cluster_spec [cl5a, cl5b] (by simp) (by decide)
  exact ⟨M, h1, h2, h3⟩

/-- A mask that the EngineeringFilter marked `is_bottom_protected`. -/
def flagged71 : Mask :=
  { bbox := ⟨0, 0, 50, 50⟩, area := 2500, stability_score := 1, predicted_iou := 1,
    is_bottom_protected := true }

/-- An unflagged neighbour of `flagged71` (centers 30 px apart, one
DBSCAN cluster). -/
def flagged72 : Mask :=
  { bbox := ⟨30, 0, 50, 50⟩, area := 2500, stability_score := 1, predicted_iou := 1 }

/-- C7 counterexample: zone flags are *not* always preserved — the
ProximityMerger's `merge_mask_cluster` synthesizes a fresh record that
carries none of its members' flags, so the `is_bottom_protected` flag of
`flagged71` is lost in the merged output region. -/
theorem merge_mask_cluster_drops_flags :
    flagged71.is_bottom_protected = true ∧
    (merge_mask_cluster [flagged71, flagged72]).map
      (fun m => m.is_bottom_protected) = some false := by
  exact ⟨rfl, rfl⟩

/-- Python `int()` applied to a float: truncation toward zero. -/
def pyInt (q : ℚ) : ℤ :=
  if q < 0 then ⌈q⌉ else ⌊q⌋

/-- Embeds the loop body of `expand_info_regions` (lines 339-382) for
one mask: non-info masks pass through unchanged; a `merged_region` mask
expands by `max(10, 5% w)` horizontally and `max(5, 2% h)` vertically
(top only); other `bottom_info` masks expand by 25 % / 20 %; remaining
info masks by 15 % both ways.  All expansions clamp to the image and
recompute `area = new_w * new_h`. -/
def expand_one (height width : ℕ) (mask : Mask) : Mask :=
  if mask.is_info_region = false then mask
  else
    let x := mask.bbox.x
    let y := mask.bbox.y
    let w := mask.bbox.w
    let h := mask.bbox.h
    if InfoTag.merged_region ∈ mask.info_type then
      let expand_x := max 10 (pyInt ((w : ℚ) * (5/100)))
      let expand_y := max 5 (pyInt ((h : ℚ) * (2/100)))
      let new_x := max 0 (x - expand_x)
      let new_y := max 0 (y - expand_y)
      let new_w := min ((width : ℤ) - new_x) (w + 2 * expand_x)
      let new_h := min ((height : ℤ) - new_y) (h + expand_y)
      { mask with bbox := ⟨new_x, new_y, new_w, new_h⟩, area := new_w * new_h }
    else
      let expand_x := if InfoTag.bottom_info ∈ mask.info_type
        then pyInt ((w : ℚ) * (25/100)) else pyInt ((w : ℚ) * (15/100))
      let expand_y := if InfoTag.bottom_info ∈ mask.info_type
        then pyInt ((h : ℚ) * (20/100)) else pyInt ((h : ℚ) * (15/100))
      let new_x := max 0 (x - expand_x)
      let new_y := max 0 (y - expand_y)
      let new_w := min ((width : ℤ) - new_x) (w + 2 * expand_x)
      let new_h := min ((height : ℤ) - new_y) (h + 2 * expand_y)
      { mask with bbox := ⟨new_x, new_y, new_w, new_h⟩, area := new_w * new_h }

/-- Embeds `expand_info_regions` (lines 332-384): one output mask per
input mask, in order. -/
def expand_info_regions (height width : ℕ) (info_masks : List Mask) : List Mask :=
  info_masks.map (expand_one height width)

/-- A mask lies inside the `width × height` image. -/
def inBounds (height width : ℕ) (m : Mask) : Prop :=
  0 ≤ m.bbox.x ∧ 0 ≤ m.bbox.y ∧
  m.bbox.x + m.bbox.w ≤ (width : ℤ) ∧ m.bbox.y + m.bbox.h ≤ (height : ℤ)

instance (height width : ℕ) (m : Mask) : Decidable (inBounds height width m) := by
  unfold inBounds; infer_instance

theorem expand_one_info_inBounds (height width : ℕ) (m : Mask)
    (h : m.is_info_region = true) :
    inBounds height width (expand_one height width m) := by
  unfold expand_one inBounds
  rw [if_neg (by simp [h])]
  by_cases hm : InfoTag.merged_region ∈ m.info_type
  · rw [if_pos hm]
    refine ⟨le_max_left _ _, le_max_left _ _, ?_, ?_⟩
    · have := min_le_left ((width : ℤ) - max 0 (m.bbox.x - max 10 (pyInt ((m.bbox.w : ℚ) * (5/100)))))
        (m.bbox.w + 2 * max 10 (pyInt ((m.bbox.w : ℚ) * (5/100))))
      dsimp only
      omega
    · have := min_le_left ((height : ℤ) - max 0 (m.bbox.y - max 5 (pyInt ((m.bbox.h : ℚ) * (2/100)))))
        (m.bbox.h + max 5 (pyInt ((m.bbox.h : ℚ) * (2/100))))
      dsimp only
      omega
  · rw [if_neg hm]
    refine ⟨le_max_left _ _, le_max_left _ _, ?_, ?_⟩
    · apply le_trans (add_le_add_left (min_le_left _ _) _)
      dsimp only
      omega
    · apply le_trans (add_le_add_left (min_le_left _ _) _)
      dsimp only
      omega

/-- C6 (amended): if every non-info input mask already lies inside the
image, every output bbox of the RegionExpander lies inside the image;
non-info masks pass through unchanged, and every info mask's area is
recomputed as `new_w * new_h` of its expanded bbox.  (The in-bounds
hypothesis is needed: non-info masks are copied verbatim, with no
clamping — see the counterexample.) -/
theorem expand_info_regions_bounds (height width : ℕ) (ms : List Mask)
    (hin : ∀ m ∈ ms, m.is_info_region = false → inBounds height width m) :
    (∀ m ∈ expand_info_regions height width ms, inBounds height width m) ∧
    (∀ m : Mask, m.is_info_region = false → expand_one height width m = m) ∧
    (∀ m : Mask, m.is_info_region = true →
      (expand_one height width m).area =
        (expand_one height width m).bbox.w * (expand_one height width m).bbox.h) := by
  refine ⟨?_, ?_, ?_⟩
  · intro m hm
    obtain ⟨m0, hm0, rfl⟩ := List.mem_map.mp hm
    cases hinfo : m0.is_info_region with
    | false =>
      have : expand_one height width m0 = m0 := by
        unfold expand_one
        rw [if_pos hinfo]
      rw [this]
      exact hin m0 hm0 hinfo
    | true => exact expand_one_info_inBounds height width m0 hinfo
  · intro m hm
    unfold expand_one
    rw [if_pos hm]
  · intro m hm
    unfold expand_one
    rw [if_neg (by simp [hm])]
    by_cases hmr : InfoTag.merged_region ∈ m.info_type
    · rw [if_pos hmr]
    · rw [if_neg hmr]

/-- An out-of-bounds non-info mask (x = -5). -/
def oob6 : Mask :=
  { bbox := ⟨-5, 0, 1, 1⟩, area := 1, stability_score := 1, predicted_iou := 1 }

/-- C6 counterexample: the claim's universal bound fails as stated — a
non-info mask is passed through unchanged with no clamping, so an
out-of-bounds input yields an out-of-bounds output bbox (x = -5 < 0) in
a 100×100 image. -/
theorem expand_info_regions_counterexample :
    expand_info_regions 100 100 [oob6] = [oob6] ∧ oob6.bbox.x < 0 := by
  exact ⟨rfl, by decide⟩

/-- An in-bounds non-info mask for the witness. -/
def w6a : Mask :=
  { bbox := ⟨10, 10, 30, 30⟩, area := 900, stability_score := 1, predicted_iou := 1 }

/-- An info mask near the right edge for the witness. -/
def w6b : Mask :=
  { bbox := ⟨150, 60, 45, 35⟩, area := 1575, stability_score := 1, predicted_iou := 1,
    is_info_region := true, info_type := [InfoTag.bottom_info] }

/-- C6 witness: the amended bound theorem applied to a concrete list in
a 200×100 image. -/
theorem expand_info_regions_bounds_witness :
    inBounds 100 200 (expand_one 100 200 w6b) := by
  refine (expand_info_regions_bounds 100 200 [w6a, w6b] (by decide)).1
    (expand_one 100 200 w6b) ?_
  simp [expand_info_regions]

/-- C7 (amended): the per-region stages preserve flags — the
RegionExpander never removes any of the six zone flags (the four
`info_type` tags, `is_bottom_protected`, `text_optimized`, and also the
`is_merged` / `is_protected` markers); in contrast the merging stages
(`merge_mask_cluster`, `merge_bottom_info_regions`) synthesize fresh
records that carry none of their members' flags (see the
counterexample). -/
theorem expand_one_flags_monotone (height width : ℕ) (m : Mask) (t : InfoTag) :
    (m.info_type.contains t ≤ (expand_one height width m).info_type.contains t) ∧
    (m.is_bottom_protected ≤ (expand_one height width m).is_bottom_protected) ∧
    (m.text_optimized ≤ (expand_one height width m).text_optimized) ∧
    (m.is_merged ≤ (expand_one height width m).is_merged) ∧
    (m.is_protected ≤ (expand_one height width m).is_protected) := by
  have hfields : (expand_one height width m).info_type = m.info_type ∧
      (expand_one height width m).is_bottom_protected = m.is_bottom_protected ∧
      (expand_one height width m).text_optimized = m.text_optimized ∧
      (expand_one height width m).is_merged = m.is_merged ∧
      (expand_one height width m).is_protected = m.is_protected := by
    unfold expand_one
    by_cases h1 : m.is_info_region = false
    · rw [if_pos h1]
      exact ⟨rfl, rfl, rfl, rfl, rfl⟩
    · rw [if_neg h1]
      by_cases h2 : InfoTag.merged_region ∈ m.info_type
      · rw [if_pos h2]
        exact ⟨rfl, rfl, rfl, rfl, rfl⟩
      · rw [if_neg h2]
        exact ⟨rfl, rfl, rfl, rfl, rfl⟩
  obtain ⟨h1, h2, h3, h4, h5⟩ := hfields
  rw [h1, h2, h3, h4, h5]
  exact ⟨le_refl _, le_refl _, le_refl _, le_refl _, le_refl _⟩

/-- The exact value of the IEEE-754 double `np.pi`
(`0x400921FB54442D18 = 884279719003555 / 2^48`). -/
def np_pi : ℚ := 884279719003555 / 281474976710656

/-- `y > int(h * 0.8)`: the strict bottom-protect band of the filter
(line 515). -/
def inBottomProtect (height : ℕ) (m : Mask) : Prop :=
  m.bbox.y > ((8 * height / 10 : ℕ) : ℤ)

/-- `y > h * 0.7` (line 518). -/
def inBottomInfoF (height : ℕ) (m : Mask) : Prop :=
  (m.bbox.y : ℚ) > (height : ℚ) * (7/10)

/-- `x > w * 0.7` (line 519). -/
def inRightInfoF (width : ℕ) (m : Mask) : Prop :=
  (m.bbox.x : ℚ) > (width : ℚ) * (7/10)

/-- `is_info_region` of the filter phase (line 520). -/
def isInfoRegionF (height width : ℕ) (m : Mask) : Prop :=
  inBottomInfoF height m ∨ inRightInfoF width m

instance (height : ℕ) (m : Mask) : Decidable (inBottomProtect height m) := by
  unfold inBottomProtect; infer_instance

instance (height : ℕ) (m : Mask) : Decidable (inBottomInfoF height m) := by
  unfold inBottomInfoF; infer_instance

instance (width : ℕ) (m : Mask) : Decidable (inRightInfoF width m) := by
  unfold inRightInfoF; infer_instance

instance (height width : ℕ) (m : Mask) : Decidable (isInfoRegionF height width m) := by
  unfold isInfoRegionF; infer_instance

/-- The zone-dependent area-ratio window (lines 522-537). -/
def areaRatioOK (height width : ℕ) (m : Mask) : Prop :=
  let area_ratio : ℚ := (m.area : ℚ) / ((height * width : ℕ) : ℚ)
  if inBottomProtect height m then 8/1000 ≤ area_ratio ∧ area_ratio ≤ 5/10
  else if isInfoRegionF height width m then 2/1000 ≤ area_ratio ∧ area_ratio ≤ 3/10
  else 3/1000 ≤ area_ratio ∧ area_ratio ≤ 7/10

/-- The zone-dependent aspect-ratio bound (lines 540-552),
`aspect_ratio = max(w,h) / max(min(w,h), 1)`. -/
def aspectRatioOK (height width : ℕ) (m : Mask) : Prop :=
  let aspect_ratio : ℚ := ((max m.bbox.w m.bbox.h : ℤ) : ℚ) /
    ((max (min m.bbox.w m.bbox.h) 1 : ℤ) : ℚ)
  if inBottomProtect height m then aspect_ratio ≤ 8
  else if isInfoRegionF height width m then aspect_ratio ≤ 25
  else aspect_ratio ≤ 15

/-- The compactness check (lines 555-567), skipped when the perimeter is
not positive. -/
def compactnessOK (height width : ℕ) (m : Mask) : Prop :=
  let perimeter := 2 * (m.bbox.w + m.bbox.h)
  perimeter > 0 →
    (let compactness : ℚ :=
        4 * np_pi * (m.area : ℚ) / ((perimeter : ℚ) * (perimeter : ℚ))
     let min_compactness : ℚ :=
        if inBottomProtect height m then 1/10
        else if isInfoRegionF height width m then 2/100
        else 5/100
     min_compactness ≤ compactness)

/-- The margin exception (lines 569-573): the candidate is dropped when
`(x < 10 and not info) or y < 10` holds *and* its area is below 5 % of
the image.  Note the `y < 10` disjunct applies to info regions too. -/
def marginDrop (height width : ℕ) (m : Mask) : Prop :=
  ((m.bbox.x < 10 ∧ ¬ isInfoRegionF height width m) ∨ m.bbox.y < 10) ∧
  (m.area : ℚ) < ((height * width : ℕ) : ℚ) * (5/100)

instance (height width : ℕ) (m : Mask) : Decidable (areaRatioOK height width m) := by
  unfold areaRatioOK; infer_instance

instance (height width : ℕ) (m : Mask) : Decidable (aspectRatioOK height width m) := by
  unfold aspectRatioOK; infer_instance

instance (height width : ℕ) (m : Mask) : Decidable (compactnessOK height width m) := by
  unfold compactnessOK; infer_instance

instance (height width : ℕ) (m : Mask) : Decidable (marginDrop height width m) := by
  unfold marginDrop; infer_instance

/-- Embeds the loop body of `filter_masks_by_engineering_criteria`
(lines 509-583) for one mask: the four sequential checks, then the
protective tagging of survivors. -/
def filter_one (height width : ℕ) (m : Mask) : Option Mask :=
  if ¬ areaRatioOK height width m then none
  else if ¬ aspectRatioOK height width m then none
  else if ¬ compactnessOK height width m then none
  else if marginDrop height width m then none
  else some (
    if inBottomProtect height m then
      { m with is_bottom_protected := true, priority_boost := 3/2 }
    else if isInfoRegionF height width m then
      { m with is_protected_text := true, priority_boost := 13/10 }
    else m)

/-- Embeds `filter_masks_by_engineering_criteria` (lines 498-585). -/
def filter_masks_by_engineering_criteria (height width : ℕ) (masks : List Mask) :
    List Mask :=
  masks.filterMap (filter_one height width)

/-- C8 (amended): a candidate that passes the area-ratio, aspect-ratio
and compactness checks is dropped by the margin exception iff
`((x < 10 and not info) or y < 10)` holds and its area is below 5 % of
the image area.  The `x < 10` disjunct spares info regions, but the
`y < 10` disjunct does not: an info region touching the *top* margin can
be dropped (see the counterexample); only the left-margin part of the
exception never drops info regions. -/
theorem filter_margin_exception (height width : ℕ) (m : Mask)
    (h1 : areaRatioOK height width m) (h2 : aspectRatioOK height width m)
    (h3 : compactnessOK height width m) :
    filter_one height width m = none ↔ marginDrop height width m := by
  unfold filter_one
  rw [if_neg (not_not_intro h1), if_neg (not_not_intro h2), if_neg (not_not_intro h3)]
  by_cases hmd : marginDrop height width m
  · rw [if_pos hmd]
    simp [hmd]
  · rw [if_neg hmd]
    simp [hmd]

/-- An info-region candidate (x = 800 > 0.7·1000) touching the top
margin (y = 5 < 10) in a 1000×1000 image, passing all three shape
checks. -/
def c8m : Mask :=
  { bbox := ⟨800, 5, 50, 50⟩, area := 2500, stability_score := 1, predicted_iou := 1 }

/-- C8 counterexample: `c8m` is an info region touching the top margin
with area below 5 %, it passes the area/aspect/compactness checks, yet
the filter drops it through the margin exception — refuting "info
regions touching those margins are never dropped by this exception". -/
theorem filter_margin_counterexample :
    isInfoRegionF 1000 1000 c8m ∧
    areaRatioOK 1000 1000 c8m ∧
    aspectRatioOK 1000 1000 c8m ∧
    compactnessOK 1000 1000 c8m ∧
    filter_masks_by_engineering_criteria 1000 1000 [c8m] = [] := by
  refine ⟨by decide!, by decide!, by decide!, by decide!, by decide!⟩

/-- A clean info-region candidate away from both margins. -/
def w8m : Mask :=
  { bbox := ⟨800, 500, 50, 50⟩, area := 2500, stability_score := 1, predicted_iou := 1 }

/-- C8 witness: the amended iff applied at `w8m`, whose three shape
checks hold. -/
theorem filter_margin_exception_witness :
    filter_one 1000 1000 w8m = none ↔ marginDrop 1000 1000 w8m := by
  exact filter_margin_exception 1000 1000 w8m (by decide!) (by decide!) (by decide!)

/-- `center_y > int(height * 0.75)` of `detect_info_regions`
(lines 217, 234). -/
def isBottomCand (height : ℕ) (m : Mask) : Prop :=
  (m.bbox.y : ℚ) + (m.bbox.h : ℚ) / 2 > ((3 * height / 4 : ℕ) : ℚ)

/-- `center_x > int(width * 0.75)` (lines 220, 235). -/
def isRightCand (width : ℕ) (m : Mask) : Prop :=
  (m.bbox.x : ℚ) + (m.bbox.w : ℚ) / 2 > ((3 * width / 4 : ℕ) : ℚ)

/-- `0.002 < area_ratio < 0.3` (line 240). -/
def isReasonableSize (height width : ℕ) (m : Mask) : Prop :=
  2/1000 < (m.area : ℚ) / ((height * width : ℕ) : ℚ) ∧
  (m.area : ℚ) / ((height * width : ℕ) : ℚ) < 3/10

instance (height : ℕ) (m : Mask) : Decidable (isBottomCand height m) := by
  unfold isBottomCand; infer_instance

instance (width : ℕ) (m : Mask) : Decidable (isRightCand width m) := by
  unfold isRightCand; infer_instance

instance (height width : ℕ) (m : Mask) : Decidable (isReasonableSize height width m) := by
  unfold isReasonableSize; infer_instance

/-- Embeds `merge_bottom_info_regions` (lines 271-308): envelope of all
bottom fragments expanded 20 px left/right and 10 px up, clamped to the
image and extended down to the bottom edge; area = sum, stability =
mean, `predicted_iou = 0.9`, `is_merged`, `original_count` = member
count. -/
def merge_bottom_info_regions : List Mask → ℕ → ℕ → Option Mask
  | [], _, _ => none
  | m :: rest, image_width, image_height =>
    let bottom_masks := m :: rest
    let all_x := bottom_masks.foldr
      (fun k acc => k.bbox.x :: (k.bbox.x + k.bbox.w) :: acc) ([] : List ℤ)
    let all_y := bottom_masks.foldr
      (fun k acc => k.bbox.y :: (k.bbox.y + k.bbox.h) :: acc) ([] : List ℤ)
    let total_area := (bottom_masks.map (fun k => k.area)).sum
    let total_stability := (bottom_masks.map (fun k => k.stability_score)).sum
    let min_x := max 0 (all_x.foldl min m.bbox.x - 20)
    let max_x := min (image_width : ℤ) (all_x.foldl max m.bbox.x + 20)
    let min_y := max 0 (all_y.foldl min m.bbox.y - 10)
    let max_y := (image_height : ℤ)
    some { bbox := ⟨min_x, min_y, max_x - min_x, max_y - min_y⟩,
           area := total_area,
           stability_score := total_stability / (bottom_masks.length : ℚ),
           predicted_iou := 9/10,
           is_merged := true,
           original_count := bottom_masks.length }

/-- Embeds `detect_info_regions` (lines 209-269): partition the masks
into bottom candidates, right candidates and the rest (in input order);
merge the bottom candidates into one `bottom_info`+`merged_region`
envelope; flag each right candidate `right_info`; pass the others
through when they are not already info regions. -/
def detect_info_regions (height width : ℕ) (masks : List Mask) : List Mask :=
  let bottom_masks := masks.filter fun m =>
    decide (isBottomCand height m ∧ isReasonableSize height width m)
  let right_masks := masks.filter fun m =>
    decide (¬ (isBottomCand height m ∧ isReasonableSize height width m) ∧
      isRightCand width m ∧ isReasonableSize height width m)
  let other_masks := masks.filter fun m =>
    decide (¬ (isBottomCand height m ∧ isReasonableSize height width m) ∧
      ¬ (isRightCand width m ∧ isReasonableSize height width m))
  let merged_part : List Mask :=
    match merge_bottom_info_regions bottom_masks width height with
    | some merged_bottom =>
        let flagged_bottom : Mask :=
          { merged_bottom with
            is_info_region := true
            info_type := [InfoTag.bottom_info, InfoTag.merged_region] }
        [flagged_bottom]
    | none => []
  let right_part := right_masks.map fun m =>
    { m with is_info_region := true, info_type := [InfoTag.right_info] }
  let other_part := other_masks.filter fun m => m.is_info_region = false
  merged_part ++ right_part ++ other_part

/-- Embeds `create_bottom_info_region` (lines 310-330): the synthetic
protected bottom band. -/
def create_bottom_info_region (height width : ℕ) : Mask :=
  let bottom_start_y : ℤ := ((8 * height / 10 : ℕ) : ℤ)
  { bbox := ⟨0, bottom_start_y, (width : ℤ), (height : ℤ) - bottom_start_y⟩,
    area := (width : ℤ) * ((height : ℤ) - bottom_start_y),
    stability_score := 95/100,
    predicted_iou := 95/100,
    is_info_region := true,
    info_type := [InfoTag.bottom_info, InfoTag.protected_region],
    is_protected := true }

/-- Embeds lines 743-752 of `split_image`: detect the info regions, then
append the synthetic protected bottom region. -/
def inject_protected_region (height width : ℕ) (merged_masks : List Mask) : List Mask :=
  detect_info_regions height width merged_masks ++
    [create_bottom_info_region height width]

theorem merge_bottom_info_regions_not_protected (bm : List Mask) (W H : ℕ) (M : Mask)
    (h : merge_bottom_info_regions bm W H = some M) : M.is_protected = false := by
  cases bm with
  | nil => exact absurd h (by simp [merge_bottom_info_regions])
  | cons m rest =>
    simp only [merge_bottom_info_regions, Option.some.injEq] at h
    subst h
    rfl

theorem detect_info_regions_not_protected (height width : ℕ) (ms : List Mask)
    (hms : ∀ m ∈ ms, m.is_protected = false) :
    ∀ m ∈ detect_info_regions height width ms, m.is_protected = false := by
  intro m hm
  unfold detect_info_regions at hm
  simp only [List.mem_append] at hm
  rcases hm with (hm | hm) | hm
  · rcases h1 : merge_bottom_info_regions
      (ms.filter fun k =>
        decide (isBottomCand height k ∧ isReasonableSize height width k))
      width height with _ | mb
    · rw [h1] at hm
      cases hm
    · rw [h1] at hm
      simp only [List.mem_singleton] at hm
      subst hm
      show mb.is_protected = false
      exact merge_bottom_info_regions_not_protected _ _ _ mb h1
  · obtain ⟨m0, hm0, rfl⟩ := List.mem_map.mp hm
    exact hms m0 (List.mem_of_mem_filter hm0)
  · exact hms m (List.mem_of_mem_filter (List.mem_of_mem_filter hm))

/-- C4: whatever masks reach the info-detection stage (none of which is
protected — the oracle and the earlier stages never set
`is_protected`), the stage output contains exactly one protected
region: the synthetic bottom band with bbox
`(0, ⌊0.8·H⌋, W, H − ⌊0.8·H⌋)`, stability and predicted IoU 0.95, and
flags `bottom_info` and `protected_region`. -/
theorem protected_region_injected (height width : ℕ) (ms : List Mask)
    (hms : ∀ m ∈ ms, m.is_protected = false) :
    (inject_protected_region height width ms).filter (fun m => m.is_protected) =
      [create_bottom_info_region height width] ∧
    (create_bottom_info_region height width).bbox =
      ⟨0, ((8 * height / 10 : ℕ) : ℤ), (width : ℤ),
        (height : ℤ) - ((8 * height / 10 : ℕ) : ℤ)⟩ ∧
    (create_bottom_info_region height width).stability_score = 95/100 ∧
    (create_bottom_info_region height width).predicted_iou = 95/100 ∧
    InfoTag.protected_region ∈ (create_bottom_info_region height width).info_type ∧
    InfoTag.bottom_info ∈ (create_bottom_info_region height width).info_type := by
  refine ⟨?_, rfl, rfl, rfl, by simp [create_bottom_info_region], by
    simp [create_bottom_info_region]⟩
  unfold inject_protected_region
  rw [List.filter_append]
  have h1 : (detect_info_regions height width ms).filter (fun m => m.is_protected) = [] := by
    rw [List.filter_eq_nil_iff]
    intro m hm
    simp [detect_info_regions_not_protected height width ms hms m hm]
  rw [h1]
  simp [create_bottom_info_region]

/-- C4 witness: the injection theorem at a 100×200 image with an empty
candidate list ("even if the oracle produced nothing"). -/
theorem protected_region_injected_witness :
    (inject_protected_region 100 200 []).filter (fun m => m.is_protected) =
      [create_bottom_info_region 100 200] := by
  exact (protected_region_injected 100 200 [] (by simp)).1

/-- Embeds `calculate_importance_score` (lines 453-476): base quality
times priority multipliers — ×3.0 for protected regions, else ×2.5 for
merged regions, else ×1.8 for info regions, further ×1.4 when tagged
`bottom_info` and ×1.6 when `is_bottom_protected`. -/
def calculate_importance_score (mask : Mask) : ℚ :=
  let base_score := (mask.area : ℚ) * mask.stability_score
  if mask.is_protected then base_score * 3
  else if mask.is_merged then base_score * (5/2)
  else if mask.is_info_region then
    let s1 := base_score * (9/5)
    let s2 := if InfoTag.bottom_info ∈ mask.info_type then s1 * (7/5) else s1
    if mask.is_bottom_protected then s2 * (8/5) else s2
  else base_score

/-- The stable descending comparison of `sort_masks_by_importance`. -/
def importanceLE (a b : Mask) : Bool :=
  decide (calculate_importance_score b ≤ calculate_importance_score a)

/-- Embeds `sort_masks_by_importance` (lines 449-478). -/
def sort_masks_by_importance (masks : List Mask) : List Mask :=
  masks.mergeSort importanceLE

/-- Embeds `self.sort_masks_by_importance(final_masks_deduped)[:20]` of
`split_image` (line 774): the ranked list truncated to 20 entries. -/
def select_final_masks (masks : List Mask) : List Mask :=
  (sort_masks_by_importance masks).take 20

/-- The composite importance score in the claim's words: base quality
multiplied by a single multiplier path. -/
def importanceScoreSpec (m : Mask) : ℚ :=
  let base := (m.area : ℚ) * m.stability_score
  let multiplier : ℚ :=
    if m.is_protected then 3
    else if m.is_merged then 5/2
    else if m.is_info_region then
      (9/5) * (if InfoTag.bottom_info ∈ m.info_type then 7/5 else 1) *
        (if m.is_bottom_protected then 8/5 else 1)
    else 1
  base * multiplier

theorem importanceLE_trans :
    ∀ a b c : Mask, importanceLE a b → importanceLE b c → importanceLE a c := by
  intro a b c hab hbc
  simp only [importanceLE, decide_eq_true_eq] at *
  exact le_trans hbc hab

theorem importanceLE_total : ∀ a b : Mask, importanceLE a b || importanceLE b a := by
  intro a b
  simp only [importanceLE, Bool.or_eq_true, decide_eq_true_eq]
  exact le_total (calculate_importance_score b) (calculate_importance_score a)

/-- C3: the ranker's final output has at most 20 entries, is sorted
non-increasingly by the composite importance score, and that score is
exactly the claim's formula: `area · stabilityScore` times 3.0 for
protected regions, else 2.5 for merged regions, else 1.8 for info
regions compounded with 1.4 for `bottom_info` and 1.6 for
`is_bottom_protected`. -/
theorem select_final_masks_spec (masks : List Mask) :
    (select_final_masks masks).length ≤ 20 ∧
    List.Pairwise
      (fun a b => calculate_importance_score b ≤ calculate_importance_score a)
      (select_final_masks masks) ∧
    (∀ m : Mask, calculate_importance_score m = importanceScoreSpec m) := by
  refine ⟨?_, ?_, ?_⟩
  · exact List.length_take_le 20 _
  · have hs : List.Pairwise (fun a b => importanceLE a b = true)
        (sort_masks_by_importance masks) :=
      List.sorted_mergeSort importanceLE_trans importanceLE_total masks
    have ht : List.Pairwise (fun a b => importanceLE a b = true)
        (select_final_masks masks) :=
      List.Pairwise.sublist (List.take_sublist 20 _) hs
    exact ht.imp (fun h => by simpa [importanceLE, decide_eq_true_eq] using h)
  · intro m
    unfold calculate_importance_score importanceScoreSpec
    by_cases h1 : m.is_protected = true <;>
    by_cases h2 : m.is_merged = true <;>
    by_cases h3 : m.is_info_region = true <;>
    by_cases h4 : InfoTag.bottom_info ∈ m.info_type <;>
    by_cases h5 : m.is_bottom_protected = true <;>
    simp only [h1, h2, h3, h4, h5, if_true, if_false, Bool.false_eq_true, ite_true, ite_false,
      eq_self_iff_true, not_true, not_false_iff] <;>
    ring
